import Mathlib

/-!
Shallow embedding of `aphrodite/modeling/layers/quantization/smoothquant.py`
(SmoothQuant w8a8 quantized linear layer): the `SmoothQuantConfig` policy
class, the `Int8GEMM` singleton kernel-handle provider, and the
`SQLinearMethod` linear operator, together with theorems checking the
natural-language specification against this embedding.

Python dictionaries with string keys are embedded as association lists
`List (String × _)` (a Python `dict` has unique keys, so theorems that
depend on key uniqueness carry a `Nodup` hypothesis on the key list).
Raw JSON configuration values are embedded as `JValue`. Tensors are
embedded as a shape/dtype/device descriptor plus flat row-major integer
data; the native GEMM kernel is embedded by its numeric contract.
-/

/-- A raw JSON configuration value, as found in `quant_config.json`. -/
inductive JValue where
  | str (s : String)
  | num (n : Int)
  | boolean (b : Bool)
  | null
deriving DecidableEq, Repr

/-- Construction-time errors of `SmoothQuantConfig.__init__` (both are
`ValueError` in Python; the spec names them `UnsupportedBitWidth` and
`EmptyQuantizationMap`). -/
inductive ConfigError where
  | UnsupportedBitWidth
  | EmptyQuantizationMap
deriving DecidableEq, Repr

/-- The state of a successfully constructed `SmoothQuantConfig`.
`weight_bits` is kept as a raw `JValue` because Python compares the
dynamically-typed config value against the integer 8 directly. -/
structure SmoothQuantConfig where
  weight_bits : JValue
  quant_map : Option (List (String × String))
deriving DecidableEq, Repr

/-- `SmoothQuantConfig.__init__`: stores the fields, then raises when
`weight_bits != 8`, then raises when `quant_map` is `None` or `{}`. -/
def SmoothQuantConfig.init (weight_bits : JValue)
    (quant_map : Option (List (String × String))) :
    Except ConfigError SmoothQuantConfig :=
  if weight_bits ≠ JValue.num 8 then
    .error .UnsupportedBitWidth
  else if quant_map = none ∨ quant_map = some [] then
    .error .EmptyQuantizationMap
  else
    .ok ⟨weight_bits, quant_map⟩

/-- Modelled from the spec: `QuantizationConfig.get_from_keys` is defined in
`aphrodite/modeling/layers/quantization/base_config.py`, which is not among
the sources here. Per the spec it looks the value up under the given keys,
preferring whichever is present (in the given order), and reports failure
(`none`, standing for the raised `ValueError`) when no key is present. -/
def get_from_keys (config : List (String × JValue)) (keys : List String) :
    Option JValue :=
  match keys with
  | [] => none
  | k :: rest =>
    match config.lookup k with
    | some v => some v
    | none => get_from_keys config rest

/-- `SmoothQuantConfig.from_config`: looks the bit width up under
`"w_bit"` or `"bits"` (defaulting to 8, with a printed warning, when the
lookup raises), filters the config down to the entries whose value is the
string `"per-tensor"` or `"per-token"`, and delegates to `__init__`. -/
def SmoothQuantConfig.from_config (config : List (String × JValue)) :
    Except ConfigError SmoothQuantConfig :=
  let weight_bits := (get_from_keys config ["w_bit", "bits"]).getD (JValue.num 8)
  let quant_map := config.filterMap fun kv =>
    match kv.2 with
    | JValue.str s =>
      if s = "per-tensor" ∨ s = "per-token" then some (kv.1, s) else none
    | _ => none
  SmoothQuantConfig.init weight_bits (some quant_map)

/-- The bit-width lookup as the spec words it: a value under `"w_bit"` if
that key is present, otherwise a value under `"bits"` if that key is
present, otherwise the default 8. -/
def specBitWidth (config : List (String × JValue)) : JValue :=
  match config.lookup "w_bit" with
  | some v => v
  | none =>
    match config.lookup "bits" with
    | some v => v
    | none => JValue.num 8

/-- The granularity-tag test as the spec words it: a value is retained
exactly when it is the string `"per-tensor"` or the string `"per-token"`. -/
def granTag (v : JValue) : Option String :=
  if v = JValue.str "per-tensor" then some "per-tensor"
  else if v = JValue.str "per-token" then some "per-token"
  else none

/-- The quantization map as the spec words it: every key of the raw config
whose value carries a granularity tag, mapped to that tag. -/
def specQuantMap (config : List (String × JValue)) : List (String × String) :=
  config.filterMap fun kv => (granTag kv.2).map fun s => (kv.1, s)

/-- `FromRawConfig` as the spec words it: `Construct` applied to the
spec-side bit width and quantization map. -/
def fromRawConfigSpec (config : List (String × JValue)) :
    Except ConfigError SmoothQuantConfig :=
  SmoothQuantConfig.init (specBitWidth config) (some (specQuantMap config))

/-- Tensor element types appearing in this component. -/
inductive DType where
  | int8
  | int32
  | float32
  | float16
deriving DecidableEq, Repr

/-- Device placements appearing in this component. -/
inductive Device where
  | cuda
  | cpu
deriving DecidableEq, Repr

/-- A dense tensor descriptor: shape, element type, device, flat row-major
data, plus the attribute bag written by `set_weight_attrs` and the
`requires_grad` flag of `torch.nn.Parameter`. Element values are embedded
as unbounded integers: every tensor this component computes with holds
int8/int32 data, and the spec documents int32 accumulation as assumed not
to overflow (not checked), so no modular truncation is modelled. The
float32 scale scalars hold the integer value 1 (for 1.0). -/
structure Tensor where
  shape : List Nat
  dtype : DType
  device : Device
  data : List Int
  attrs : List (String × Nat) := []
  requiresGrad : Bool := false
deriving DecidableEq, Repr

/-- Number of elements of a tensor. -/
def Tensor.numel (t : Tensor) : Nat := t.shape.prod

/-- `torch.empty(shape, dtype, device)`: a fresh tensor; the uninitialized
memory is embedded as zeros (no theorem depends on pre-kernel contents). -/
def torchEmpty (shape : List Nat) (dtype : DType) (device : Device) : Tensor :=
  { shape := shape, dtype := dtype, device := device,
    data := List.replicate shape.prod 0 }

/-- `torch.tensor(1.0, dtype=torch.float32, device='cpu')`: a 0-dimensional
scalar holding 1.0. -/
def scalarOne : Tensor :=
  { shape := [], dtype := .float32, device := .cpu, data := [1] }

/-- `torch.nn.Parameter(t, requires_grad=False)`. -/
def Parameter (t : Tensor) : Tensor := { t with requiresGrad := false }

/-- Modelled from the spec: `set_weight_attrs` is defined in
`aphrodite/modeling/layers/linear.py`, which is not among the sources here.
Per the spec it tags the tensor with the given axis-role attributes for
downstream sharding logic; the tags are embedded as an attribute bag. -/
def set_weight_attrs (t : Tensor) (a : List (String × Nat)) : Tensor :=
  { t with attrs := t.attrs ++ a }

/-- `torch.Tensor.view` with one dimension given as `-1`: the new shape is
`before ++ [inferred] ++ after`, where `inferred` makes the element count
match. Returns `none` (a raised `RuntimeError`) when the known dimensions
have product zero (the inferred size would be ambiguous or impossible) or
when the element count is not divisible by that product. Data, dtype and
device are unchanged. -/
def viewWithHole (t : Tensor) (before after : List Nat) : Option Tensor :=
  let p := (before ++ after).prod
  if p = 0 then none
  else if t.numel % p = 0 then
    some { t with shape := before ++ [t.numel / p] ++ after }
  else none

/-- Row-major entry `d[i, j]` of a matrix with `cols` columns stored flat in
`d` (out-of-range reads default to 0; theorems only use in-range indices). -/
def matEntry (d : List Int) (cols i j : Nat) : Int := d.getD (i * cols + j) 0

/-- Contract of the native kernel operation
`ops.I8CUGEMM().linear_a8_w8_o32_(x, w, y)` (the kernel itself is an
external collaborator): with `x : [M, K]` and `w : [N, K]`, it fills `y`
in place, row-major, with `y[i, j] = Σ_k x[i, k] * w[j, k]` accumulated in
int32 (overflow documented as assumed absent, hence not modelled). -/
def linear_a8_w8_o32 (x w y : Tensor) : Tensor :=
  let m := x.shape.getD 0 0
  let k := x.shape.getD 1 0
  let n := w.shape.getD 0 0
  { y with data := (List.range (m * n)).map fun t =>
      ∑ j ∈ Finset.range k, matEntry x.data k (t / n) j * matEntry w.data k (t % n) j }

/-- Call-time failures of `SQLinearMethod.apply_weights`: the failed
`assert bias is None` (spec name `UnsupportedBias`), a missing `"weight"`
key (`KeyError`), `x.shape[-1]` on a 0-dimensional input (`IndexError`),
and a failed `view` (`RuntimeError`). -/
inductive ApplyError where
  | UnsupportedBias
  | KeyError
  | IndexError
  | ViewError
deriving DecidableEq, Repr

/-- Observable side effects of `apply_weights`, recorded in program order:
allocation of the output buffer and invocation of the GEMM kernel. -/
inductive ApplyEvent where
  | AllocOutput
  | KernelCall
deriving DecidableEq, Repr

/-- `SQLinearMethod.apply_weights`: asserts `bias is None`, fetches
`weights["weight"]`, flattens `x` to 2-D with `x.view(-1, x.shape[-1])`,
allocates the int32 output `y` of shape `[x.shape[0], weight.shape[0]]` on
`x.device`, runs the kernel in place, and reshapes with
`y.view(*x_shape[:-1], -1)`. Returns the result (or the Python exception)
together with the list of side effects that occurred before returning. -/
def SQLinearMethod.apply_weights (weights : List (String × Tensor))
    (x : Tensor) (bias : Option Tensor) :
    Except ApplyError Tensor × List ApplyEvent :=
  match bias with
  | some _ => (.error .UnsupportedBias, [])
  | none =>
    match weights.lookup "weight" with
    | none => (.error .KeyError, [])
    | some weight =>
      match x.shape.getLast? with
      | none => (.error .IndexError, [])
      | some lastDim =>
        match viewWithHole x [] [lastDim] with
        | none => (.error .ViewError, [])
        | some x2 =>
          let y0 := torchEmpty [x2.shape.getD 0 0, weight.shape.getD 0 0] .int32 x.device
          let y1 := linear_a8_w8_o32 x2 weight y0
          match viewWithHole y1 x.shape.dropLast [] with
          | none => (.error .ViewError, [.AllocOutput, .KernelCall])
          | some y => (.ok y, [.AllocOutput, .KernelCall])

/-- `SQLinearMethod.create_weights`: allocates the int8 weight of shape
`[output_size_per_partition, input_size_per_partition]` on the accelerator,
tags its axis roles, and allocates the six float32 scale scalars on the
host, each 1.0; `input_size`, `output_size` and `params_dtype` are accepted
but unused. Returns the Python dict as an association list in insertion
order. -/
def SQLinearMethod.create_weights (input_size_per_partition : Nat)
    (output_size_per_partition : Nat) (input_size : Nat) (output_size : Nat)
    (params_dtype : DType) : List (String × Tensor) :=
  let weight := set_weight_attrs
    (Parameter (torchEmpty [output_size_per_partition, input_size_per_partition] .int8 .cuda))
    [("input_dim", 1), ("output_dim", 0)]
  [("weight", weight),
   ("q_dequant_scale", Parameter scalarOne),
   ("k_dequant_scale", Parameter scalarOne),
   ("v_dequant_scale", Parameter scalarOne),
   ("gate_dequant_scale", Parameter scalarOne),
   ("up_dequant_scale", Parameter scalarOne),
   ("dequant_scale", Parameter scalarOne)]

/-- Shared process state for the `Int8GEMM` singleton:
`instanceCreated` is `hasattr(Int8GEMM, "_instance")` (the lone instance,
allocated by `object.__new__` inside the lock), `lockHeld` is
`Int8GEMM._instance_lock`, `i8cugemmSet` is `hasattr(instance, "i8cugemm")`
on that instance, and `factoryCalls` counts invocations of the native
kernel factory `ops.I8CUGEMM()`. -/
structure GemmState where
  instanceCreated : Bool
  lockHeld : Bool
  i8cugemmSet : Bool
  factoryCalls : Nat
deriving DecidableEq, Repr

/-- The initial process state: no instance, lock free, no kernel built. -/
def GemmState.start : GemmState :=
  { instanceCreated := false, lockHeld := false, i8cugemmSet := false,
    factoryCalls := 0 }

/-- One thread executing `Int8GEMM()` (that is, `__new__` then `__init__`),
as a program counter over its atomic steps:
0 = `__new__`'s unlocked `hasattr(Int8GEMM, "_instance")` check (skip to 4
when the instance already exists); 1 = acquire `_instance_lock` (a thread
finding it held stays at 1); 2 = the locked re-check, allocating the
instance when still absent; 3 = release the lock; 4 = `__init__`'s
unsynchronized `hasattr(self, "i8cugemm")` check (skip to 6 when set);
5 = call `ops.I8CUGEMM()` and store it; 6 = done (the thread holds
`Int8GEMM._instance`, the unique instance). -/
def gemmThreadStep (s : GemmState) (pc : Nat) : GemmState × Nat :=
  match pc with
  | 0 => if s.instanceCreated then (s, 4) else (s, 1)
  | 1 => if s.lockHeld then (s, 1) else ({ s with lockHeld := true }, 2)
  | 2 => if s.instanceCreated then (s, 3)
         else ({ s with instanceCreated := true }, 3)
  | 3 => ({ s with lockHeld := false }, 4)
  | 4 => if s.i8cugemmSet then (s, 6) else (s, 5)
  | 5 => ({ s with i8cugemmSet := true, factoryCalls := s.factoryCalls + 1 }, 6)
  | _ => (s, pc)

/-- Run `n` threads, each executing `Int8GEMM()` from pc 0, under the given
interleaving (a list of thread indices; an index out of range or a finished
thread leaves the state unchanged). Returns the final shared state and each
thread's final program counter. -/
def runInt8GEMM (n : Nat) (sched : List Nat) : GemmState × List Nat :=
  sched.foldl
    (fun acc t =>
      match acc.2.get? t with
      | none => acc
      | some pc =>
        let r := gemmThreadStep acc.1 pc
        (r.1, acc.2.set t r.2))
    (GemmState.start, List.replicate n 0)

/-- Inversion of a successful `SmoothQuantConfig.init`: the bit width was
the integer 8 and the constructed config stores the given map. -/
theorem SmoothQuantConfig.init_ok_inv (wb : JValue)
    (qm : Option (List (String × String))) (c : SmoothQuantConfig)
    (h : SmoothQuantConfig.init wb qm = .ok c) :
    wb = JValue.num 8 ∧ c.weight_bits = wb ∧ c.quant_map = qm := by
  unfold SmoothQuantConfig.init at h
  split at h
  · cases h
  · split at h
    · cases h
    · rename_i hwb _
      cases h
      exact ⟨by simpa using hwb, rfl, rfl⟩

/-- Keyed lookup in an association list with no duplicate keys finds the
value of any member pair. -/
theorem lookup_of_mem_nodup {β : Type} (l : List (String × β)) (k : String)
    (v : β) (hnd : (l.map Prod.fst).Nodup) (hmem : (k, v) ∈ l) :
    l.lookup k = some v := by
  induction l with
  | nil => cases hmem
  | cons kv rest ih =>
    simp only [List.map_cons, List.nodup_cons] at hnd
    rcases List.mem_cons.mp hmem with heq | hmem2
    · cases heq
      simp [List.lookup]
    · have hk : kv.1 ≠ k := by
        intro hkk
        exact hnd.1 (hkk ▸ List.mem_map.mpr ⟨(k, v), hmem2, rfl⟩)
      have hbeq : (k == kv.1) = false :=
        beq_eq_false_iff_ne.mpr (fun hh => hk hh.symm)
      simp only [List.lookup, hbeq]
      exact ih hnd.2 hmem2

/-- C4: construction with any integer bit width other than 8 fails with
`UnsupportedBitWidth`, for every quantization map; with bit width 8 the
bit-width check passes (the result is never `UnsupportedBitWidth`). -/
theorem init_unsupported_bit_width (b : Int)
    (qm : Option (List (String × String))) :
    (b ≠ 8 → SmoothQuantConfig.init (JValue.num b) qm =
      .error .UnsupportedBitWidth) ∧
    (b = 8 → SmoothQuantConfig.init (JValue.num b) qm ≠
      .error .UnsupportedBitWidth) := by
  constructor
  · intro hb
    simp [SmoothQuantConfig.init, hb]
  · intro hb
    subst hb
    by_cases hqm : qm = none ∨ qm = some [] <;>
      simp [SmoothQuantConfig.init, hqm]

/-- Witness for C4 at bit widths 7 and 8. -/
theorem init_unsupported_bit_width_witness :
    SmoothQuantConfig.init (JValue.num 7) none =
      .error .UnsupportedBitWidth ∧
    SmoothQuantConfig.init (JValue.num 8) (some [("qkv", "per-tensor")]) ≠
      .error .UnsupportedBitWidth :=
  ⟨(init_unsupported_bit_width 7 none).1 (by decide),
   (init_unsupported_bit_width 8 (some [("qkv", "per-tensor")])).2 rfl⟩

/-- C5: with bit width 8, construction fails with `EmptyQuantizationMap`
exactly on an absent (`none`) or empty map, and succeeds on any non-empty
map. -/
theorem init_empty_quant_map (qm : Option (List (String × String))) :
    ((qm = none ∨ qm = some []) →
      SmoothQuantConfig.init (JValue.num 8) qm =
        .error .EmptyQuantizationMap) ∧
    (∀ m, qm = some m → m ≠ [] →
      ∃ c, SmoothQuantConfig.init (JValue.num 8) qm = .ok c) := by
  constructor
  · intro hqm
    simp [SmoothQuantConfig.init, hqm]
  · intro m hm hne
    subst hm
    refine ⟨⟨JValue.num 8, some m⟩, ?_⟩
    simp [SmoothQuantConfig.init, hne]

/-- Witness for C5 at the absent map and at a one-entry map. -/
theorem init_empty_quant_map_witness :
    SmoothQuantConfig.init (JValue.num 8) none =
      .error .EmptyQuantizationMap ∧
    ∃ c, SmoothQuantConfig.init (JValue.num 8) (some [("out", "per-token")]) =
      .ok c :=
  ⟨(init_empty_quant_map none).1 (Or.inl rfl),
   (init_empty_quant_map (some [("out", "per-token")])).2
     [("out", "per-token")] rfl (by simp)⟩

/-- C9: when both preconditions are violated (bit width not 8 and map
absent or empty), the failure is `UnsupportedBitWidth`: the bit-width check
runs first. -/
theorem init_bitwidth_checked_before_map (b : Int)
    (qm : Option (List (String × String))) (hb : b ≠ 8)
    (hqm : qm = none ∨ qm = some []) :
    SmoothQuantConfig.init (JValue.num b) qm = .error .UnsupportedBitWidth := by
  simp [SmoothQuantConfig.init, hb]

/-- Witness for C9 at bit width 7 and the absent map. -/
theorem init_bitwidth_checked_before_map_witness :
    SmoothQuantConfig.init (JValue.num 7) none =
      .error .UnsupportedBitWidth :=
  init_bitwidth_checked_before_map 7 none (by decide) (Or.inl rfl)

/-- The code-side bit-width lookup with default 8 agrees with the
spec-side one. -/
theorem get_from_keys_default_eq_specBitWidth (config : List (String × JValue)) :
    (get_from_keys config ["w_bit", "bits"]).getD (JValue.num 8) =
      specBitWidth config := by
  simp only [get_from_keys, specBitWidth]
  cases config.lookup "w_bit" <;> cases config.lookup "bits" <;> rfl

/-- The code-side granularity filter agrees with the spec-side map. -/
theorem filterMap_granularity_eq_specQuantMap (config : List (String × JValue)) :
    (config.filterMap fun kv =>
      match kv.2 with
      | JValue.str s =>
        if s = "per-tensor" ∨ s = "per-token" then some (kv.1, s) else none
      | _ => none) = specQuantMap config := by
  unfold specQuantMap
  induction config with
  | nil => rfl
  | cons kv rest ih =>
    rcases kv with ⟨k, v⟩
    simp only [List.filterMap_cons]
    cases v with
    | str s =>
      by_cases hs1 : s = "per-tensor"
      · subst hs1; simp [granTag, ih]
      · by_cases hs2 : s = "per-token"
        · subst hs2; simp [granTag, ih]
        · simp [granTag, hs1, hs2, ih]
    | num n => simp [granTag, ih]
    | boolean b => simp [granTag, ih]
    | null => simp [granTag, ih]

/-- C6: `from_config` agrees with the spec-side reference definition on
every raw config (same bit-width lookup with default 8, same granularity
filter, same delegation to construction), and evaluates the spec's example
to bit width 8 with the map retaining exactly the two granularity-tagged
keys. -/
theorem from_config_matches_spec :
    (∀ config, SmoothQuantConfig.from_config config = fromRawConfigSpec config) ∧
    SmoothQuantConfig.from_config
      [("qkv", JValue.str "per-tensor"), ("out", JValue.str "per-token"),
       ("bits", JValue.num 8)] =
      .ok ⟨JValue.num 8, some [("qkv", "per-tensor"), ("out", "per-token")]⟩ := by
  constructor
  · intro config
    simp only [SmoothQuantConfig.from_config, fromRawConfigSpec]
    rw [get_from_keys_default_eq_specBitWidth,
      filterMap_granularity_eq_specQuantMap]
  · rfl

/-- Counterexample to C10: a raw config holding both `"w_bit": 8` and
`"bits": "per-tensor"` parses successfully (the bit-width lookup prefers
`"w_bit"`), yet the resulting quantization map contains the key
`"bits"`. -/
theorem from_config_bits_key_in_map :
    SmoothQuantConfig.from_config
      [("w_bit", JValue.num 8), ("bits", JValue.str "per-tensor")] =
      .ok ⟨JValue.num 8, some [("bits", "per-tensor")]⟩ ∧
    "bits" ∈ ([("bits", "per-tensor")].map Prod.fst) :=
  ⟨rfl, by simp⟩

/-- C10 (amended): for every raw config with distinct keys on which
`from_config` succeeds, the resulting quantization map does not contain the
key `"w_bit"` (a granularity-string value under `"w_bit"` would be the
preferred bit-width lookup result and fail the bit-width check); the key
`"bits"` can appear, as the counterexample shows. -/
theorem from_config_no_w_bit_key (config : List (String × JValue))
    (c : SmoothQuantConfig) (m : List (String × String))
    (hnd : (config.map Prod.fst).Nodup)
    (hok : SmoothQuantConfig.from_config config = .ok c)
    (hm : c.quant_map = some m) :
    "w_bit" ∉ m.map Prod.fst := by
  intro habs
  simp only [SmoothQuantConfig.from_config] at hok
  obtain ⟨hwb, _, hqm⟩ := SmoothQuantConfig.init_ok_inv _ _ _ hok
  rw [hm] at hqm
  obtain ⟨⟨k2, s⟩, hmem_m, hk2⟩ := List.mem_map.mp habs
  have hmem_f : ((k2, s) : String × String) ∈ config.filterMap fun kv =>
      match kv.2 with
      | JValue.str t =>
        if t = "per-tensor" ∨ t = "per-token" then some (kv.1, t) else none
      | _ => none := by
    rw [← Option.some_inj.mp hqm]
    exact hmem_m
  obtain ⟨⟨k1, v⟩, hmem_cfg, hf⟩ := List.mem_filterMap.mp hmem_f
  cases v with
  | str t =>
    dsimp only at hf
    by_cases ht : t = "per-tensor" ∨ t = "per-token"
    · rw [if_pos ht] at hf
      injection hf with hpair
      injection hpair with hk1 hts
      simp only at hk2
      subst hk1 hts hk2
      have hlk : config.lookup "w_bit" = some (JValue.str t) :=
        lookup_of_mem_nodup config "w_bit" (JValue.str t) hnd hmem_cfg
      simp only [get_from_keys, hlk, Option.getD_some] at hwb
      cases hwb
    · rw [if_neg ht] at hf
      cases hf
  | num n => cases hf
  | boolean b => cases hf
  | null => cases hf

/-- Witness for the amended C10 at a concrete two-key config. -/
theorem from_config_no_w_bit_key_witness :
    SmoothQuantConfig.from_config
      [("qkv", JValue.str "per-tensor"), ("bits", JValue.num 8)] =
      .ok ⟨JValue.num 8, some [("qkv", "per-tensor")]⟩ ∧
    "w_bit" ∉ ([("qkv", "per-tensor")].map Prod.fst) :=
  ⟨rfl,
   from_config_no_w_bit_key
     [("qkv", JValue.str "per-tensor"), ("bits", JValue.num 8)]
     ⟨JValue.num 8, some [("qkv", "per-tensor")]⟩
     [("qkv", "per-tensor")] (by simp) rfl rfl⟩

/-- C2 (failing run): two threads constructing `Int8GEMM` concurrently,
interleaved so that thread 0 allocates the singleton and is preempted
between `__init__`'s unsynchronized `hasattr(self, "i8cugemm")` check and
the assignment, while thread 1 performs the same check: both threads run to
completion (both hold the unique `_instance`), yet the native kernel
factory `ops.I8CUGEMM()` is invoked twice — the lock guards only the
instance allocation in `__new__`, not the kernel construction in
`__init__`. -/
theorem int8gemm_concurrent_double_factory_call :
    (runInt8GEMM 2 [0, 0, 0, 0, 0, 1, 1, 0, 1]).1.factoryCalls = 2 ∧
    (runInt8GEMM 2 [0, 0, 0, 0, 0, 1, 1, 0, 1]).2 = [6, 6] ∧
    (runInt8GEMM 2 [0, 0, 0, 0, 0, 1, 1, 0, 1]).1.instanceCreated = true := by
  decide

/-- In a sequential (non-interleaved) run, the second construction of
`Int8GEMM` reuses both the singleton instance and its kernel handle: the
factory is invoked once. -/
theorem int8gemm_sequential_single_factory_call :
    (runInt8GEMM 2 [0, 0, 0, 0, 0, 0, 1, 1]).1.factoryCalls = 1 ∧
    (runInt8GEMM 2 [0, 0, 0, 0, 0, 0, 1, 1]).2 = [6, 6] := by
  decide

/-- C3: for every pair of partition sizes, total sizes and requested
element dtype, `create_weights` returns exactly the seven named entries in
source order; the weight has shape
`[output_size_per_partition, input_size_per_partition]`, dtype int8 (the
requested dtype notwithstanding), lives on the accelerator and is tagged
`input_dim = 1`, `output_dim = 0`; and each of the six dequantization
scales is a 0-dimensional float32 scalar equal to 1.0 in host memory. -/
theorem create_weights_layout (ip op tin tout : Nat) (dt : DType) :
    (SQLinearMethod.create_weights ip op tin tout dt).map Prod.fst =
      ["weight", "q_dequant_scale", "k_dequant_scale", "v_dequant_scale",
       "gate_dequant_scale", "up_dequant_scale", "dequant_scale"] ∧
    (∃ w, (SQLinearMethod.create_weights ip op tin tout dt).lookup "weight" =
        some w ∧
      w.shape = [op, ip] ∧ w.dtype = .int8 ∧ w.device = .cuda ∧
      w.attrs = [("input_dim", 1), ("output_dim", 0)]) ∧
    (∀ name ∈ ["q_dequant_scale", "k_dequant_scale", "v_dequant_scale",
               "gate_dequant_scale", "up_dequant_scale", "dequant_scale"],
      (SQLinearMethod.create_weights ip op tin tout dt).lookup name =
        some { shape := [], dtype := .float32, device := .cpu, data := [1] }) := by
  refine ⟨rfl, ⟨_, rfl, rfl, rfl, rfl, rfl⟩, ?_⟩
  intro name hname
  fin_cases hname <;> rfl

/-- C8: `create_weights` does not depend on `input_size` and
`output_size` (the total, unpartitioned sizes): two calls agreeing on the
partition sizes and dtype but differing arbitrarily in the total sizes
return identical weight/scale structures. -/
theorem create_weights_ignores_total_sizes (ip op tin1 tout1 tin2 tout2 : Nat)
    (dt : DType) :
    SQLinearMethod.create_weights ip op tin1 tout1 dt =
      SQLinearMethod.create_weights ip op tin2 tout2 dt := rfl

/-- C7: `apply_weights` called with any non-absent bias fails with
`UnsupportedBias` (the failed `assert bias is None`), for every weights
dictionary and input, and does so before allocating the output buffer or
invoking the kernel: the recorded side-effect trace is empty. -/
theorem apply_weights_bias_rejected (weights : List (String × Tensor))
    (x b : Tensor) :
    SQLinearMethod.apply_weights weights x (some b) =
      (.error .UnsupportedBias, []) := rfl

/-- Reshaping a 2-D `[B, N]` tensor back to leading dimensions of product
`B` (the final `y.view(*x_shape[:-1], -1)`) infers the last dimension `N`. -/
theorem viewWithHole_unflatten (t : Tensor) (lead : List Nat) (B N : Nat)
    (hs : t.shape = [B, N]) (hB : lead.prod = B) (hBpos : 0 < B) :
    viewWithHole t lead [] = some { t with shape := lead ++ [N] } := by
  simp only [viewWithHole, List.append_nil, Tensor.numel, hs, hB,
    List.prod_cons, List.prod_nil, mul_one]
  rw [if_neg (Nat.pos_iff_ne_zero.mp hBpos),
    if_pos (Nat.mul_mod_right _ _), Nat.mul_div_right _ hBpos]

/-- Evaluation of a successful `apply_weights` run: with a well-shaped
input (`lead ++ [K]` against a `[N, K]` weight, non-degenerate batch), the
result is the int32 tensor of shape `lead ++ [N]` on the input's device
whose flat row-major data is the kernel contract's matrix product, and the
side effects are one allocation followed by one kernel call. -/
theorem apply_weights_ok (weights : List (String × Tensor)) (x w : Tensor)
    (lead : List Nat) (K N : Nat)
    (hw : weights.lookup "weight" = some w)
    (hxs : x.shape = lead ++ [K])
    (hws : w.shape = [N, K])
    (hK : 0 < K) (hB : 0 < lead.prod) :
    SQLinearMethod.apply_weights weights x none =
      (.ok { shape := lead ++ [N], dtype := .int32, device := x.device,
             data := (List.range (lead.prod * N)).map fun t =>
               ∑ j ∈ Finset.range K,
                 matEntry x.data K (t / N) j * matEntry w.data K (t % N) j },
       [.AllocOutput, .KernelCall]) := by
  have hKne : K ≠ 0 := Nat.pos_iff_ne_zero.mp hK
  have hBne : lead.prod ≠ 0 := Nat.pos_iff_ne_zero.mp hB
  have hgl : x.shape.getLast? = some K := by
    rw [hxs]; exact List.getLast?_concat lead
  have hdl : x.shape.dropLast = lead := by
    rw [hxs]; exact List.dropLast_concat
  have hview1 : viewWithHole x [] [K] =
      some { x with shape := [lead.prod, K] } := by
    simp only [viewWithHole, List.nil_append, List.prod_cons, List.prod_nil,
      mul_one, Tensor.numel, hxs, List.prod_append]
    rw [if_neg hKne, if_pos (Nat.mul_mod_left _ _), Nat.mul_div_left _ hK]
    rfl
  simp only [SQLinearMethod.apply_weights, hw, hgl, hview1, hws, hdl,
    List.getD_cons_zero, List.getD_cons_succ, linear_a8_w8_o32, torchEmpty]
  rw [viewWithHole_unflatten _ lead lead.prod N rfl rfl hB]

/-- Entry `t` of a list built by mapping `f` over `List.range n`. -/
theorem getD_map_range {α : Type} (f : Nat → α) (n t : Nat) (d : α)
    (h : t < n) : ((List.range n).map f).getD t d = f t := by
  rw [List.getD_eq_getElem?_getD, List.getElem?_map, List.getElem?_range h]
  rfl

/-- C1: for every weights dictionary whose `"weight"` entry has shape
`[N, K]` and every input of shape `lead ++ [K]` (trailing dimension equal
to the weight's column count, batch non-degenerate), `apply_weights` with
bias absent succeeds with an output of shape `lead ++ [N]`, dtype int32,
on the input's device, whose entries satisfy
`output[i, j] = Σ_k input[i, k] * weight[j, k]` over the flattened
(row-major) batch index `i`, the 2-D multiply being the shared kernel
handle's contract. -/
theorem apply_weights_matmul_contract (weights : List (String × Tensor))
    (x w : Tensor) (lead : List Nat) (K N : Nat)
    (hw : weights.lookup "weight" = some w)
    (hxs : x.shape = lead ++ [K]) (hws : w.shape = [N, K])
    (hK : 0 < K) (hB : 0 < lead.prod) :
    ((SQLinearMethod.apply_weights weights x none).1.map Tensor.shape =
      .ok (lead ++ [N])) ∧
    ((SQLinearMethod.apply_weights weights x none).1.map Tensor.dtype =
      .ok DType.int32) ∧
    ((SQLinearMethod.apply_weights weights x none).1.map Tensor.device =
      .ok x.device) ∧
    (∀ i j, i < lead.prod → j < N →
      (SQLinearMethod.apply_weights weights x none).1.map
          (fun y => y.data.getD (i * N + j) 0) =
        .ok (∑ k ∈ Finset.range K,
          x.data.getD (i * K + k) 0 * w.data.getD (j * K + k) 0)) := by
  have h := apply_weights_ok weights x w lead K N hw hxs hws hK hB
  have h1 : (SQLinearMethod.apply_weights weights x none).1 =
      .ok { shape := lead ++ [N], dtype := .int32, device := x.device,
            data := (List.range (lead.prod * N)).map fun t =>
              ∑ j ∈ Finset.range K,
                matEntry x.data K (t / N) j * matEntry w.data K (t % N) j } := by
    rw [h]
  refine ⟨by rw [h1]; rfl, by rw [h1]; rfl, by rw [h1]; rfl, ?_⟩
  intro i j hi hj
  rw [h1]
  have hN : 0 < N := Nat.lt_of_le_of_lt (Nat.zero_le j) hj
  have hij : i * N + j < lead.prod * N := by
    have h2 : (i + 1) * N ≤ lead.prod * N := Nat.mul_le_mul_right N hi
    have h3 : (i + 1) * N = i * N + N := by ring
    omega
  simp only [Except.map]
  rw [getD_map_range _ _ _ _ hij]
  have hdiv : (i * N + j) / N = i := by
    rw [Nat.add_comm, Nat.add_mul_div_right _ _ hN, Nat.div_eq_of_lt hj,
      Nat.zero_add]
  have hmod : (i * N + j) % N = j := by
    simp [Nat.add_mod, Nat.mul_mod_left, Nat.mod_eq_of_lt hj]
  rw [hdiv, hmod]
  rfl

/-- The concrete 2×3 int8 input used to witness C1:
rows `[1, 0, -1]` and `[2, 1, 0]`. -/
def witnessInput : Tensor :=
  { shape := [2, 3], dtype := .int8, device := .cuda,
    data := [1, 0, -1, 2, 1, 0] }

/-- The concrete 2×3 int8 weight used to witness C1:
rows `[1, 2, 3]` and `[4, 5, 6]`. -/
def witnessWeight : Tensor :=
  { shape := [2, 3], dtype := .int8, device := .cuda,
    data := [1, 2, 3, 4, 5, 6] }

/-- Witness for C1 at the concrete 2×3 input and weight above
(`lead = [2]`, `K = 3`, `N = 2`), checking the shape conclusion and the
entry `output[1, 0] = 2*1 + 1*2 + 0*3 = 4`. -/
theorem apply_weights_matmul_contract_witness :
    ((SQLinearMethod.apply_weights [("weight", witnessWeight)] witnessInput
        none).1.map Tensor.shape = .ok [2, 2]) ∧
    ((SQLinearMethod.apply_weights [("weight", witnessWeight)] witnessInput
        none).1.map (fun y => y.data.getD (1 * 2 + 0) 0) =
      .ok (∑ k ∈ Finset.range 3,
        witnessInput.data.getD (1 * 3 + k) 0 *
          witnessWeight.data.getD (0 * 3 + k) 0)) ∧
    (∑ k ∈ Finset.range 3,
      witnessInput.data.getD (1 * 3 + k) 0 *
        witnessWeight.data.getD (0 * 3 + k) 0) = 4 := by
  have h := apply_weights_matmul_contract [("weight", witnessWeight)]
    witnessInput witnessWeight [2] 3 2 rfl rfl rfl (by decide) (by decide)
  exact ⟨h.1, h.2.2.2 1 0 (by decide) (by decide), by decide⟩
